import Mathlib

/-!
Verification of the necklace-splitting local-search program.

The development shallowly embeds the two parallel `Necklace` implementations
(`src/necklace.py`, scalar; `src/npnecklace.py`, vectorized) and the search
engine (`src/localsearch.py`).  Python lists and numpy arrays become `List ℕ`,
Python floats become exact rationals `ℚ`, and fallible operations return
`Except PyErr`.  Randomness is made explicit: a random draw becomes a
parameter (a seed list or a chosen index), so that every possible run of the
program corresponds to some choice of these parameters.
-/

/-- Python exceptions raised by the embedded code paths.  The constructors
`searchExhaustedError` and `configurationError` are modelled from the spec:
the spec names these two error classes in its error taxonomy, but no such
classes exist anywhere in the source; they are included only so that theorems
can state that the code never produces them. -/
inductive PyErr where
  | valueError
  | indexError
  | typeError
  | searchExhaustedError
  | configurationError
  deriving DecidableEq

/-- `np.unique(l)` / the sorted list of distinct values of `l`
(`necklace.py` line 58, `npnecklace.py` line 18). -/
def npUnique (l : List ℕ) : List ℕ :=
  List.insertionSort (· ≤ ·) l.dedup

/-- The state held by a `Necklace` object: the fields assigned in
`Necklace.__init__` (both implementations).  `num_cuts` is an integer because
Python computes `(num_thieves - 1) * bead_types`, which is negative when
`num_thieves = 0`.  `score` is the cached score field. -/
structure Necklace where
  beads : List ℕ
  num_beads : ℕ
  bead_types : ℕ
  num_thieves : ℕ
  max_move : ℕ
  num_cuts : ℤ
  cuts : List ℕ
  assignments : List ℕ
  score : ℚ
  deriving DecidableEq

/-- Consecutive pairs of a list: `zipPairs [a, b, c] = [(a, b), (b, c)]`.
Mirrors iterating `intervals[i], intervals[i+1]` in `get_thief_beads`
(`necklace.py` lines 197-201) and `np.stack((intervals[:-1], intervals[1:]))`
(`npnecklace.py` line 122). -/
def zipPairs : List ℕ → List (ℕ × ℕ)
  | a :: b :: rest => (a, b) :: zipPairs (b :: rest)
  | _ => []

/-- Python slice `l[a:b]` for `0 ≤ a, b` (empty when `b ≤ a` or `a ≥ len l`,
exactly as in Python). -/
def pySlice (l : List ℕ) (a b : ℕ) : List ℕ :=
  (l.drop a).take (b - a)

/-- The partition boundaries `[0] + cuts + [num_beads]` paired consecutively
(`necklace.py` line 197; `npnecklace.py` lines 121-122: `np.insert` of `cuts`
at position 1 into `[0, num_beads]` builds the same boundary list). -/
def boundaryPairs (s : Necklace) : List (ℕ × ℕ) :=
  zipPairs (0 :: (s.cuts ++ [s.num_beads]))

/-- The bead sub-ranges of the partitions assigned to `thief`, in partition
order.  Both implementations select exactly these slices
(`necklace.py` lines 199-201, `npnecklace.py` line 123). -/
def selectedSlices (s : Necklace) (thief : ℕ) : List (List ℕ) :=
  ((boundaryPairs s).zip s.assignments).filterMap
    (fun pa => if pa.2 = thief then some (pySlice s.beads pa.1.1 pa.1.2) else none)

/-- `Necklace.get_thief_beads` of `necklace.py` (lines 191-202): concatenate,
by repeated `+=`, the slices of the partitions assigned to `thief`; a thief
owning no partition yields `[]`. -/
def get_thief_beads (s : Necklace) (thief : ℕ) : List ℕ :=
  (selectedSlices s thief).flatten

/-- `np.concatenate`: raises `ValueError` ("need at least one array to
concatenate") on an empty list of arrays, otherwise concatenates. -/
def npConcatenate (ls : List (List ℕ)) : Except PyErr (List ℕ) :=
  if ls.isEmpty then .error .valueError else .ok ls.flatten

/-- `Necklace.get_thief_beads` of `npnecklace.py` (lines 121-124):
`np.concatenate` over the slices selected by the boolean mask
`assignments == thief`. -/
def npGet_thief_beads (s : Necklace) (thief : ℕ) : Except PyErr (List ℕ) :=
  npConcatenate (selectedSlices s thief)

/-- The `counts` returned by `np.unique(l, return_counts=True)`: the count in
`l` of each distinct value, in sorted-value order. -/
def uniqueCounts (l : List ℕ) : List ℕ :=
  (npUnique l).map (fun v => l.count v)

/-- `perfect_bead_split[i] = counts[i] / num_thieves`
(`necklace.py` line 211, `npnecklace.py` line 133). -/
def perfectSplit (s : Necklace) (i : ℕ) : ℚ :=
  ((uniqueCounts s.beads).getD i 0 : ℚ) / (s.num_thieves : ℚ)

/-- `Necklace.gen_score` of `necklace.py` (lines 204-224): for each thief and
each index `i` into the global `unique` array, add 2 when `i` is not among the
values of the thief beads, else the absolute difference of
`perfect_bead_split[i]` and the count looked up through
`np.where(thief_unique == i)`. -/
def gen_score (s : Necklace) : ℚ :=
  ∑ thief ∈ Finset.range s.num_thieves,
    ∑ i ∈ Finset.range (npUnique s.beads).length,
      (if i ∈ npUnique (get_thief_beads s thief) then
        |perfectSplit s i -
          ((uniqueCounts (get_thief_beads s thief)).getD
            ((npUnique (get_thief_beads s thief)).indexOf i) 0 : ℚ)|
      else 2)

/-- `Necklace.gen_score` of `npnecklace.py` (lines 126-141): materialize every
thief bead list (raising whatever `get_thief_beads` raises), count each bead
type `0 ≤ t < bead_types` by the `np.equal`/`np.tile` comparison, and sum
`|thief_counts - perfect_bead_split|`. -/
def npGen_score (s : Necklace) : Except PyErr ℚ := do
  let tbs ← (List.range s.num_thieves).mapM (fun thief => npGet_thief_beads s thief)
  pure (∑ thief ∈ Finset.range s.num_thieves,
    ∑ t ∈ Finset.range s.bead_types,
      |((tbs.getD thief []).count t : ℚ) - perfectSplit s t|)

/-- Modelled from the spec:
`score = Σ_thief Σ_type | ideal[type] − observed_count[thief, type] |` with
`ideal[t] = count[t] / num_thieves`, an absent type counting as observed 0 and
no additive penalty.  Stated for comparison with the implementations. -/
def specScore (s : Necklace) : ℚ :=
  ∑ thief ∈ Finset.range s.num_thieves,
    ∑ t ∈ Finset.range s.bead_types,
      |(s.beads.count t : ℚ) / (s.num_thieves : ℚ) - ((get_thief_beads s thief).count t : ℚ)|

/-- The absolute-deviation sum with a flat penalty of 2 for every
(thief, type) pair with zero observed count: the formula the scalar
implementation actually computes.  Stated for comparison with `gen_score`. -/
def penaltyScore (s : Necklace) : ℚ :=
  ∑ thief ∈ Finset.range s.num_thieves,
    ∑ t ∈ Finset.range s.bead_types,
      (if (get_thief_beads s thief).count t = 0 then 2
       else |(s.beads.count t : ℚ) / (s.num_thieves : ℚ) -
              ((get_thief_beads s thief).count t : ℚ)|)

/-- `self.num_cuts = (num_thieves - 1) * self.bead_types` (`necklace.py`
line 63): an integer, negative when `num_thieves = 0`. -/
def derivedNumCuts (beads : List ℕ) (num_thieves : ℕ) : ℤ :=
  ((num_thieves : ℤ) - 1) * ((npUnique beads).length : ℤ)

/-- Build the `Necklace` object produced by the constructor from known cuts
and assignments: derived fields recomputed from `beads` exactly as
`__init__` does, and the score cached by the constructor call to
`gen_score`. -/
def mkState (beads : List ℕ) (num_thieves max_move : ℕ)
    (cuts assignments : List ℕ) : Necklace :=
  let pre : Necklace :=
    { beads := beads
      num_beads := beads.length
      bead_types := (npUnique beads).length
      num_thieves := num_thieves
      max_move := max_move
      num_cuts := derivedNumCuts beads num_thieves
      cuts := cuts
      assignments := assignments
      score := 0 }
  { pre with score := gen_score pre }

/-- The cut-move family of `Necklace.get_neighbors` (`necklace.py` lines
160-174, identical in `npnecklace.py` lines 95-107): for each cut index, for
each position within `max_move` of the current position (clamped to
`[0, num_beads)`) that is not already a cut, a copy of the state with that one
cut replaced and the score regenerated. -/
def cutMoveNeighbors (s : Necklace) : List Necklace :=
  (List.range s.num_cuts.toNat).flatMap (fun i =>
    let pos := s.cuts.getD i 0
    let right := pos - s.max_move
    let left := if pos + s.max_move < s.num_beads then pos + s.max_move else s.num_beads
    ((List.range' right (left - right)).filter (fun p => decide (p ∉ s.cuts))).map
      (fun p => mkState s.beads s.num_thieves s.max_move (s.cuts.set i p) s.assignments))

/-- The assignment-change family of `Necklace.get_neighbors` (`necklace.py`
lines 176-188, identical in `npnecklace.py` lines 108-118).  The source sets
`prev = i if i > 0 else 0` (which is just `i`) and forbids the window
`assignments[prev:prev + 3]`, i.e. the values at indices `i`, `i+1`, `i+2` -
not the left neighbor. -/
def assignMoveNeighbors (s : Necklace) : List Necklace :=
  (List.range s.assignments.length).flatMap (fun i =>
    let prev := if 0 < i then i else 0
    let cannot := (s.assignments.drop prev).take 3
    ((List.range s.num_thieves).filter (fun th => decide (th ∉ cannot))).map
      (fun th => mkState s.beads s.num_thieves s.max_move s.cuts (s.assignments.set i th)))

/-- `Necklace.get_neighbors`: the cut-move family followed by the
assignment-change family. -/
def get_neighbors (s : Necklace) : List Necklace :=
  cutMoveNeighbors s ++ assignMoveNeighbors s

/-- `sorted(neighbors, key=lambda obj: obj.score)` in `LocalSearch.search`
(`localsearch.py` line 32): Python sorted is a stable ascending sort, which
a stable sort (`List.insertionSort`) models exactly. -/
def sortNeighbors (s : Necklace) : List Necklace :=
  List.insertionSort (fun a b => a.score ≤ b.score) (get_neighbors s)

/-- The unnormalized weights `[(1 / i) ** 2 for i in range(1, len(neighbors) + 1)]`
(`localsearch.py` line 35). -/
def pTilde (k : ℕ) : List ℚ :=
  (List.range' 1 k).map (fun i : ℕ => (1 / (i : ℚ)) ^ 2)

/-- `p = p / p.sum()` (`localsearch.py` line 36): the probability that the
neighbor of 1-based sorted rank `r` is sampled among `k` neighbors. -/
def sampleProb (k r : ℕ) : ℚ :=
  (pTilde k).getD (r - 1) 0 / (pTilde k).sum

/-- One iteration body of `LocalSearch.search` (`localsearch.py` lines 31-37):
sort the neighbors and sample one.  The random draw is modelled by the
parameter `r`: the sampled element is the entry of the sorted list at index
`r % k`, so every valid draw corresponds to some `r` and conversely.  With no
neighbors, `np.random.choice` raises `ValueError` ("a cannot be empty"). -/
def searchStep (s : Necklace) (r : ℕ) : Except PyErr Necklace :=
  let ns := sortNeighbors s
  if ns.isEmpty then .error .valueError
  else .ok (ns.getD (r % ns.length) s)

/-- The `while time.time() < t_end` loop of `LocalSearch.search`
(`localsearch.py` lines 29-40) with the wall clock abstracted into the list
`rs` of per-iteration random draws: the loop runs once per element of `rs`
(a zero budget gives `rs = []`), keeps the first state strictly better than
every earlier one as `best_solution`, and returns it at the end. -/
def searchLoop : Necklace → Necklace → List ℕ → Except PyErr Necklace
  | _, best, [] => .ok best
  | cur, best, r :: rs => do
      let nxt ← searchStep cur r
      searchLoop nxt (if nxt.score < best.score then nxt else best) rs

/-- `LocalSearch.search` started from `init` (`localsearch.py` lines 26-42):
`best_solution` and the current object both start at `init`. -/
def search (init : Necklace) (rs : List ℕ) : Except PyErr Necklace :=
  searchLoop init init rs

/-- The states successively sampled as the current state during a run of
`search` with draws `rs`. -/
def trajectory : Necklace → List ℕ → Except PyErr (List Necklace)
  | _, [] => .ok []
  | cur, r :: rs => do
      let nxt ← searchStep cur r
      let rest ← trajectory nxt rs
      .ok (nxt :: rest)

/-- `sorted(random.sample(range(n), k))` in `Necklace.gen_cuts`
(`necklace.py` lines 123-128): `random.sample` raises `ValueError` ("sample
larger than population or is negative") unless `0 ≤ k ≤ n`; the sampled
positions are modelled by `draw` and returned sorted. -/
def pySample (n : ℕ) (k : ℤ) (draw : List ℕ) : Except PyErr (List ℕ) :=
  if k < 0 ∨ (n : ℤ) < k then .error .valueError
  else .ok (List.insertionSort (· ≤ ·) (draw.take k.toNat))

/-- The loop of `Necklace.gen_assignments` (`necklace.py` lines 136-142):
each later entry is drawn by `random.choice` from the thieves different from
the previous entry (`random.choice` raises `IndexError` on an empty
sequence); the draws are modelled by the seed list. -/
def genAsgGo (T : ℕ) : ℕ → ℕ → List ℕ → Except PyErr (List ℕ)
  | _, 0, _ => .ok []
  | last, fuel + 1, seeds =>
      let possible := (List.range T).filter (fun a => decide (a ≠ last))
      if possible.isEmpty then .error .indexError
      else do
        let v := possible.getD (seeds.headD 0 % possible.length) 0
        let rest ← genAsgGo T v fuel seeds.tail
        .ok (v :: rest)

/-- `Necklace.gen_assignments` (`necklace.py` lines 130-144): start from
`np.zeros(num_cuts + 1)` (raising `ValueError` for a negative dimension),
leave entry 0 as thief 0 and fill entries `1 .. num_cuts` by the loop. -/
def gen_assignments (T : ℕ) (numCuts : ℤ) (seeds : List ℕ) : Except PyErr (List ℕ) :=
  if numCuts + 1 < 0 then .error .valueError
  else if (numCuts + 1).toNat = 0 then .ok []
  else do
    let rest ← genAsgGo T 0 ((numCuts + 1).toNat - 1) seeds
    .ok (0 :: rest)

/-- `Necklace.__init__` (`necklace.py` lines 49-68) for integer bead inputs
(for which `int_beads` is the identity): derive `bead_types` and `num_cuts`,
use the given cuts and assignments when present and the random generators
otherwise, then cache `gen_score`.  The constructor itself validates
nothing. -/
def necklaceInit (beads : List ℕ) (num_thieves max_move : ℕ)
    (cuts0 : Option (List ℕ)) (assignments0 : Option (List ℕ))
    (cutDraw : List ℕ) (asgSeeds : List ℕ) : Except PyErr Necklace := do
  let numCuts : ℤ := derivedNumCuts beads num_thieves
  let cuts ← match cuts0 with
    | some c => Except.ok c
    | none => pySample beads.length numCuts cutDraw
  let asg ← match assignments0 with
    | some a => Except.ok a
    | none => gen_assignments num_thieves numCuts asgSeeds
  .ok (mkState beads num_thieves max_move cuts asg)

/-- Python values as they appear in a `Necklace.__dict__`: ints, floats
(exact rationals here), strings, lists (Python lists and numpy arrays, both
unhashable), and tuples. -/
inductive PyVal where
  | pyInt : ℤ → PyVal
  | pyRat : ℚ → PyVal
  | pyStr : String → PyVal
  | pyList : List PyVal → PyVal
  | pyTuple : List PyVal → PyVal

mutual

/-- Python `hash`: numbers and strings are hashable (the numeric hash value
is abstracted, only definedness matters here), a list or numpy array raises
`TypeError` ("unhashable type"), and a tuple hashes its elements in order,
propagating the first failure. -/
def pyHash : PyVal → Except PyErr ℤ
  | .pyInt n => .ok n
  | .pyRat q => .ok q.num
  | .pyStr t => .ok (t.length : ℤ)
  | .pyList _ => .error .typeError
  | .pyTuple vs => do
      let hs ← pyHashList vs
      .ok (hs.foldl (fun a b => a + b) 0)

/-- Elementwise hashing of a tuple, stopping at the first unhashable
element, as CPython does. -/
def pyHashList : List PyVal → Except PyErr (List ℤ)
  | [] => .ok []
  | v :: vs => do
      let h ← pyHash v
      let hs ← pyHashList vs
      .ok (h :: hs)

end

/-- `self.__dict__.items()` of a scalar `Necklace` in attribute insertion
order (`necklace.py` lines 58-68): `beads` is a Python list, `cuts` a list,
`assignments` a numpy array, and the remaining attributes numbers. -/
def necklaceItems (s : Necklace) : List (String × PyVal) :=
  [("beads", .pyList (s.beads.map (fun b => .pyInt b))),
   ("num_beads", .pyInt s.num_beads),
   ("bead_types", .pyInt s.bead_types),
   ("num_thieves", .pyInt s.num_thieves),
   ("max_move", .pyInt s.max_move),
   ("num_cuts", .pyInt s.num_cuts),
   ("cuts", .pyList (s.cuts.map (fun c => .pyInt c))),
   ("assignments", .pyList (s.assignments.map (fun a => .pyInt a))),
   ("score", .pyRat s.score)]

/-- Lexicographic comparison of character lists by code point: how Python
compares strings. -/
def charsLe (a b : List Char) : Bool :=
  match a, b with
  | [], _ => true
  | _ :: _, [] => false
  | x :: xs, y :: ys =>
      if x.val < y.val then true else if y.val < x.val then false else charsLe xs ys

/-- Python string comparison, used by `sorted` on the dict keys. -/
def pyStrLe (a b : String) : Prop :=
  charsLe a.data b.data = true

instance (a b : String) : Decidable (pyStrLe a b) := by
  unfold pyStrLe; infer_instance

/-- `Necklace.__hash__` (`necklace.py` lines 91-95, identical in
`npnecklace.py` lines 49-53): `hash(tuple(sorted(self.__dict__.items())))` -
the items sorted by key (tuple comparison on distinct string keys never
compares the values) and packed into a tuple of (key, value) tuples. -/
def necklaceHash (s : Necklace) : Except PyErr ℤ :=
  pyHash (.pyTuple
    ((List.insertionSort (fun a b => pyStrLe a.1 b.1) (necklaceItems s)).map
      (fun kv => .pyTuple [.pyStr kv.1, kv.2])))

/-- A constructed state in which thief 1 holds no bead of type 0:
`Necklace([0, 0], 2, cuts=[0], assignments=[0, 0])`. -/
def exC1 : Necklace := mkState [0, 0] 2 20 [0] [0, 0]

/-- A canonical two-type state in which every thief owns a partition:
`Necklace([0, 1, 0, 1], 2, cuts=[1, 3], assignments=[0, 1, 0])`. -/
def exC1w : Necklace := mkState [0, 1, 0, 1] 2 20 [1, 3] [0, 1, 0]

/-- `Necklace([0, 0, 0], 3, max_move=0, cuts=[1, 2], assignments=[0, 1, 2])`:
`max_move = 0` silences the cut-move family, leaving only assignment moves. -/
def exC2 : Necklace := mkState [0, 0, 0] 3 0 [1, 2] [0, 1, 2]

/-- `Necklace([0]*6, 3, max_move=5, cuts=[1, 4], assignments=[0, 1, 2])`:
cut 0 can move past cut 1. -/
def exC3 : Necklace := mkState [0, 0, 0, 0, 0, 0] 3 5 [1, 4] [0, 1, 2]

/-- `Necklace([0], 1, cuts=[], assignments=[0])`: with one thief and no cuts
both move families are empty, so the neighbor set is empty. -/
def exC4 : Necklace := mkState [0] 1 20 [] [0]

/-- A small state used to exercise the engine with a zero-iteration run. -/
def exC6 : Necklace := mkState [0, 0] 2 1 [0] [0, 1]

/-- `Necklace([0, 0], 2, max_move=1, cuts=[0], assignments=[0, 1])`: exactly
one neighbor (the assignment move at index 1). -/
def exC7 : Necklace := mkState [0, 0] 2 1 [0] [0, 1]

/-- `Necklace([0, 0, 0], 3, cuts=[0, 1], assignments=[0, 1, 0])`: thief 2 owns
no partition (an assignment vector reachable from random seeding). -/
def exC8 : Necklace := mkState [0, 0, 0] 3 20 [0, 1] [0, 1, 0]

/-- Base state for the neighbor frame theorem witness. -/
def exC9 : Necklace := mkState [0, 0, 0] 3 0 [1, 2] [0, 1, 2]

/-- The first neighbor of `exC9`: assignment index 1 changed from 1 to 0. -/
def nbC9 : Necklace := mkState [0, 0, 0] 3 0 [1, 2] [0, 0, 2]

/-- The score field cached by the constructor equals `gen_score` of the
constructed state (the score field itself does not feed into `gen_score`). -/
theorem mkState_score (b : List ℕ) (T mm : ℕ) (c a : List ℕ) :
    (mkState b T mm c a).score = gen_score (mkState b T mm c a) := rfl

/-- Membership in `np.unique(l)` is membership in `l`. -/
theorem mem_npUnique {a : ℕ} {l : List ℕ} : a ∈ npUnique l ↔ a ∈ l := by
  rw [npUnique, List.mem_insertionSort, List.mem_dedup]

theorem getD_map_range {α : Type} (f : ℕ → α) (d : α) {n i : ℕ} (h : i < n) :
    ((List.range n).map f).getD i d = f i := by
  have hlt : i < ((List.range n).map f).length := by simpa using h
  rw [List.getD_eq_getElem _ _ hlt, List.getElem_map, List.getElem_range]

theorem getD_map_indexOf {α : Type} (f : ℕ → α) (l : List ℕ) (a : ℕ) (d : α)
    (h : a ∈ l) : (l.map f).getD (l.indexOf a) d = f a := by
  have hlt : l.indexOf a < l.length := List.indexOf_lt_length.mpr h
  have hlt2 : l.indexOf a < (l.map f).length := by simpa using hlt
  rw [List.getD_eq_getElem _ _ hlt2, List.getElem_map, List.getElem_indexOf hlt]

/-- The scalar `gen_score` computes the absolute-deviation sum with a flat 2
for every (thief, type) pair whose observed count is zero, for canonically
numbered beads. -/
theorem gen_score_eq_penaltyScore (s : Necklace)
    (hb : s.bead_types = (npUnique s.beads).length)
    (hcanon : npUnique s.beads = List.range s.bead_types) :
    gen_score s = penaltyScore s := by
  rw [gen_score, penaltyScore, ← hb]
  apply Finset.sum_congr rfl
  intro thief _
  apply Finset.sum_congr rfl
  intro i hi
  rw [Finset.mem_range] at hi
  by_cases hmem : i ∈ npUnique (get_thief_beads s thief)
  · rw [if_pos hmem]
    have hmem2 : i ∈ get_thief_beads s thief := mem_npUnique.mp hmem
    have hcount : ¬ (get_thief_beads s thief).count i = 0 :=
      fun h0 => (List.count_eq_zero.mp h0) hmem2
    rw [if_neg hcount]
    simp only [perfectSplit, uniqueCounts]
    rw [hcanon, getD_map_range _ _ hi, getD_map_indexOf _ _ _ _ hmem]
  · rw [if_neg hmem]
    have hcount : (get_thief_beads s thief).count i = 0 :=
      List.count_eq_zero.mpr (fun hmem2 => hmem (mem_npUnique.mpr hmem2))
    rw [if_pos hcount]

theorem mapM_ok {α β : Type} (f : α → Except PyErr β) (g : α → β) :
    ∀ l : List α, (∀ a ∈ l, f a = .ok (g a)) → l.mapM f = .ok (l.map g) := by
  intro l
  induction l with
  | nil => intro _; rfl
  | cons a l ih =>
      intro h
      rw [List.mapM_cons, h a (List.mem_cons_self a l),
          ih (fun b hb => h b (List.mem_cons_of_mem _ hb))]
      rfl

/-- The vectorized `gen_score` computes exactly the plain absolute-deviation
sum of the spec whenever it is defined, i.e. whenever every thief owns at
least one partition. -/
theorem npGen_score_eq_specScore (s : Necklace)
    (hcanon : npUnique s.beads = List.range s.bead_types)
    (hne : ∀ t, t < s.num_thieves → selectedSlices s t ≠ []) :
    npGen_score s = .ok (specScore s) := by
  have hok : ∀ t ∈ List.range s.num_thieves,
      npGet_thief_beads s t = .ok (get_thief_beads s t) := by
    intro t ht
    rw [List.mem_range] at ht
    rw [npGet_thief_beads, npConcatenate, if_neg]
    · rfl
    · rw [List.isEmpty_iff]
      exact hne t ht
  rw [npGen_score, mapM_ok _ _ _ hok]
  show Except.ok (∑ thief ∈ Finset.range s.num_thieves,
      ∑ t ∈ Finset.range s.bead_types,
        |(((((List.range s.num_thieves).map
              (fun t => get_thief_beads s t)).getD thief []).count t : ℕ) : ℚ)
          - perfectSplit s t|) = .ok (specScore s)
  congr 1
  rw [specScore]
  apply Finset.sum_congr rfl
  intro thief hthief
  rw [Finset.mem_range] at hthief
  apply Finset.sum_congr rfl
  intro t ht
  rw [Finset.mem_range] at ht
  rw [getD_map_range _ _ hthief, abs_sub_comm]
  congr 2
  rw [perfectSplit, uniqueCounts, hcanon, getD_map_range _ _ ht]

/-- C1, counterexample: for the constructed state
`Necklace([0, 0], 2, cuts=[0], assignments=[0, 0])` the cached score is 3
(thief 0 contributes `|1 - 2| = 1` and the absent type of thief 1 contributes
the flat 2), while the plain absolute-deviation sum of the claim is 2
(`|1 - 2| + |1 - 0|`): the cached score is not the plain sum. -/
theorem gen_score_not_plain_absdev :
    exC1.score = 3 ∧ specScore exC1 = 2 ∧ exC1.score ≠ specScore exC1 := by
  have h1 : exC1.score = 3 := by
    rw [show exC1 = mkState [0, 0] 2 20 [0] [0, 0] from rfl, mkState_score]
    rw [show (mkState [0, 0] 2 20 [0] [0, 0]) = exC1 from rfl]
    rw [gen_score]
    rw [show (npUnique exC1.beads).length = 1 from rfl]
    rw [show exC1.num_thieves = 2 from rfl]
    rw [Finset.sum_range_succ, Finset.sum_range_succ, Finset.sum_range_zero,
        Finset.sum_range_succ, Finset.sum_range_zero]
    rw [show npUnique (get_thief_beads exC1 0) = [0] from rfl]
    rw [show npUnique (get_thief_beads exC1 1) = [] from rfl]
    rw [show uniqueCounts (get_thief_beads exC1 0) = [2] from rfl]
    simp [perfectSplit, show uniqueCounts exC1.beads = [2] from rfl,
          show exC1.num_thieves = 2 from rfl]
    norm_num
  have h2 : specScore exC1 = 2 := by
    rw [specScore]
    rw [show exC1.num_thieves = 2 from rfl, show exC1.bead_types = 1 from rfl]
    rw [Finset.sum_range_succ, Finset.sum_range_succ, Finset.sum_range_zero,
        Finset.sum_range_succ, Finset.sum_range_zero]
    rw [show get_thief_beads exC1 0 = [0, 0] from rfl,
        show get_thief_beads exC1 1 = ([] : List ℕ) from rfl,
        show exC1.beads = [0, 0] from rfl]
    norm_num
  refine ⟨h1, h2, ?_⟩
  rw [h1, h2]
  norm_num

/-- C1, amended: for every canonically numbered state, the scalar
implementation caches the absolute-deviation sum with a flat penalty of 2 for
each (thief, type) pair with zero observed count, while the vectorized
implementation computes the plain absolute-deviation sum of the spec whenever
every thief owns at least one partition. -/
theorem scores_amended (s : Necklace)
    (hb : s.bead_types = (npUnique s.beads).length)
    (hcanon : npUnique s.beads = List.range s.bead_types)
    (hne : ∀ t, t < s.num_thieves → selectedSlices s t ≠ []) :
    gen_score s = penaltyScore s ∧ npGen_score s = .ok (specScore s) :=
  ⟨gen_score_eq_penaltyScore s hb hcanon, npGen_score_eq_specScore s hcanon hne⟩

/-- Witness for the amended C1 theorem at a concrete two-type state. -/
theorem scores_amended_witness :
    gen_score exC1w = penaltyScore exC1w ∧ npGen_score exC1w = .ok (specScore exC1w) :=
  scores_amended exC1w rfl rfl (by decide)

/-- C2: the assignment-change family of `exC2` (assignments `[0, 1, 2]`)
emits a neighbor whose new value at index 1 is 0, the assignment of the
partition immediately to its left: the code forbids the window
`assignments[i:i+3]` (self, right, right-of-right) instead of the documented
previous/current/next window `assignments[i-1:i+2]`. -/
theorem assign_move_forbidden_window_bug :
    (∃ nb ∈ get_neighbors exC2, nb.assignments = [0, 0, 2]) ∧
    exC2.assignments = [0, 1, 2] := by
  constructor
  · decide
  · rfl

/-- C3: moving cut 0 of `exC3` (cuts `[1, 4]`) to position 5 produces a
neighbor whose cuts field is `[5, 4]`, which is not sorted ascending: the
cut-move family writes the new position in place and never re-sorts. -/
theorem cut_move_unsorted_cuts_bug :
    ∃ nb ∈ get_neighbors exC3, nb.cuts = [5, 4] ∧ ¬ List.Sorted (· ≤ ·) nb.cuts := by
  decide

/-- C4, counterexample: the state `exC4` has an empty neighbor set, and the
engine fails on it with the numpy empty-sample `ValueError`, not with a
`SearchExhaustedError` (no such error exists in the code). -/
theorem empty_neighbors_valueerror_cex :
    get_neighbors exC4 = [] ∧
    search exC4 [0] = .error PyErr.valueError ∧
    search exC4 [0] ≠ .error PyErr.searchExhaustedError := by
  refine ⟨rfl, rfl, ?_⟩
  rw [show search exC4 [0] = .error PyErr.valueError from rfl]
  simp

/-- C4, amended: whenever the current state returns an empty neighbor set at
the top of an iteration, the search fails immediately with the `ValueError`
raised by `np.random.choice` on an empty sequence (it does not hang), and
that error propagates unchanged to the caller. -/
theorem empty_neighbors_error (s : Necklace) (r : ℕ) (rs : List ℕ)
    (h : get_neighbors s = []) :
    search s (r :: rs) = .error PyErr.valueError := by
  have hs : sortNeighbors s = [] := by
    rw [sortNeighbors, h]
    rfl
  have hstep : searchStep s r = .error PyErr.valueError := by
    show (if (sortNeighbors s).isEmpty = true then Except.error PyErr.valueError
      else .ok ((sortNeighbors s).getD (r % (sortNeighbors s).length) s))
      = .error PyErr.valueError
    rw [hs]
    rfl
  show (searchStep s r >>= fun nxt =>
    searchLoop nxt (if nxt.score < s.score then nxt else s) rs) = .error PyErr.valueError
  rw [hstep]
  rfl

/-- Witness for the amended C4 theorem. -/
theorem empty_neighbors_error_witness :
    search exC4 [5] = .error PyErr.valueError :=
  empty_neighbors_error exC4 5 [] rfl

/-- C5, counterexample: `Necklace([0, 0], num_thieves=0, cuts=[0],
assignments=[0, 0])` violates the claimed constraint `num_thieves ≥ 1`
(the derived `num_cuts` is -1), yet the constructor succeeds: it performs no
validation, and no `ConfigurationError` exists in the code. -/
theorem constructor_no_validation_cex :
    necklaceInit [0, 0] 0 20 (some [0]) (some [0, 0]) [] [] =
      .ok (mkState [0, 0] 0 20 [0] [0, 0]) ∧
    necklaceInit [0, 0] 0 20 (some [0]) (some [0, 0]) [] [] ≠
      .error PyErr.configurationError := by
  refine ⟨rfl, ?_⟩
  rw [show necklaceInit [0, 0] 0 20 (some [0]) (some [0, 0]) [] [] =
      .ok (mkState [0, 0] 0 20 [0] [0, 0]) from rfl]
  simp

/-- The `gen_assignments` loop never fails when there are at least two
thieves: the set of thieves different from the previous one is nonempty. -/
theorem genAsgGo_ok (T : ℕ) (hT : 2 ≤ T) :
    ∀ (fuel last : ℕ) (seeds : List ℕ), ∃ l, genAsgGo T last fuel seeds = .ok l := by
  intro fuel
  induction fuel with
  | zero => intro last seeds; exact ⟨[], rfl⟩
  | succ n ih =>
      intro last seeds
      have hw : (if last = 0 then 1 else 0) ∈
          (List.range T).filter (fun a => decide (a ≠ last)) := by
        rw [List.mem_filter]
        constructor
        · rw [List.mem_range]
          by_cases hl : last = 0
          · rw [if_pos hl]; omega
          · rw [if_neg hl]; omega
        · apply decide_eq_true
          by_cases hl : last = 0
          · rw [if_pos hl, hl]; omega
          · rw [if_neg hl]; omega
      have hposs : ((List.range T).filter (fun a => decide (a ≠ last))).isEmpty = false := by
        rcases hemp : ((List.range T).filter (fun a => decide (a ≠ last))).isEmpty with _ | _
        · rfl
        · rw [List.isEmpty_iff] at hemp
          rw [hemp] at hw
          cases hw
      obtain ⟨l, hl⟩ := ih
        (((List.range T).filter (fun a => decide (a ≠ last))).getD
          (seeds.headD 0 % ((List.range T).filter (fun a => decide (a ≠ last))).length) 0)
        seeds.tail
      refine ⟨((List.range T).filter (fun a => decide (a ≠ last))).getD
          (seeds.headD 0 % ((List.range T).filter (fun a => decide (a ≠ last))).length) 0
        :: l, ?_⟩
      rw [genAsgGo, hposs]
      simp only [Bool.false_eq_true, if_false]
      rw [hl]
      rfl

/-- C5, amended: the constructor validates nothing itself.  When cuts are
omitted and the derived `num_cuts` falls outside `[0, num_beads]`, the failure
is the `ValueError` raised by `random.sample` (not a `ConfigurationError`);
when `num_thieves ≥ 1` and `num_cuts` lies within `[0, num_beads]`,
construction with random cuts and assignments succeeds. -/
theorem constructor_validation (beads : List ℕ) (T mm : ℕ) (asg0 : Option (List ℕ))
    (cutDraw asgSeeds : List ℕ) :
    ((derivedNumCuts beads T < 0 ∨ (beads.length : ℤ) < derivedNumCuts beads T) →
      necklaceInit beads T mm none asg0 cutDraw asgSeeds = .error PyErr.valueError) ∧
    ((1 ≤ T ∧ 0 ≤ derivedNumCuts beads T ∧ derivedNumCuts beads T ≤ (beads.length : ℤ)) →
      ∃ s, necklaceInit beads T mm none none cutDraw asgSeeds = .ok s) := by
  constructor
  · intro hbad
    have hps : pySample beads.length (derivedNumCuts beads T) cutDraw
        = .error PyErr.valueError := by
      simp only [pySample]
      rw [if_pos hbad]
    simp only [necklaceInit, hps]
    rfl
  · rintro ⟨hT, h0, hub⟩
    have hcuts : pySample beads.length (derivedNumCuts beads T) cutDraw
        = .ok (List.insertionSort (· ≤ ·) (cutDraw.take (derivedNumCuts beads T).toNat)) := by
      simp only [pySample]
      rw [if_neg (by omega)]
    have hasg : ∃ l, gen_assignments T (derivedNumCuts beads T) asgSeeds = .ok l := by
      rcases Nat.lt_or_ge T 2 with hT1 | hT2
      · have hTeq : T = 1 := by omega
        subst hTeq
        have hz : derivedNumCuts beads 1 = 0 := by
          simp [derivedNumCuts]
        refine ⟨[0], ?_⟩
        rw [gen_assignments, hz]
        rfl
      · obtain ⟨l, hl⟩ := genAsgGo_ok T hT2 ((derivedNumCuts beads T + 1).toNat - 1) 0 asgSeeds
        refine ⟨0 :: l, ?_⟩
        rw [gen_assignments, if_neg (by omega), if_neg (by omega)]
        rw [hl]
        rfl
    obtain ⟨l, hl⟩ := hasg
    refine ⟨mkState beads T mm
      (List.insertionSort (· ≤ ·) (cutDraw.take (derivedNumCuts beads T).toNat)) l, ?_⟩
    simp only [necklaceInit, hcuts, hl]
    rfl

/-- Witness for the amended C5 theorem: a failing and a succeeding concrete
construction. -/
theorem constructor_validation_witness :
    (necklaceInit [0] 0 20 none none [] [] = .error PyErr.valueError) ∧
    (∃ s, necklaceInit [0, 1] 2 20 none none [0, 1] [0] = .ok s) :=
  ⟨(constructor_validation [0] 0 20 none [] []).1 (by decide),
   (constructor_validation [0, 1] 2 20 none [0, 1] [0]).2 (by decide)⟩

/-- Invariant of the search loop: a successful run returns a state whose score
is the minimum of the incoming best score and the scores of every state
sampled along the trajectory. -/
theorem searchLoop_min (rs : List ℕ) :
    ∀ cur best out : Necklace, searchLoop cur best rs = .ok out →
      ∃ tr, trajectory cur rs = .ok tr ∧
        out.score = (tr.map Necklace.score).foldl min best.score := by
  induction rs with
  | nil =>
      intro cur best out h
      have hb : best = out := Except.ok.inj h
      exact ⟨[], rfl, by simp [hb]⟩
  | cons r rs ih =>
      intro cur best out h
      rw [show searchLoop cur best (r :: rs)
          = (searchStep cur r) >>= (fun nxt =>
              searchLoop nxt (if nxt.score < best.score then nxt else best) rs) from rfl] at h
      cases hs : searchStep cur r with
      | error e =>
          rw [hs] at h
          exact Except.noConfusion h
      | ok nxt =>
          rw [hs] at h
          obtain ⟨tr, htr, hsc⟩ := ih nxt (if nxt.score < best.score then nxt else best) out h
          refine ⟨nxt :: tr, ?_, ?_⟩
          · rw [show trajectory cur (r :: rs)
                = (searchStep cur r) >>= (fun n =>
                    (trajectory n rs) >>= (fun rest => Except.ok (n :: rest))) from rfl, hs]
            show (trajectory nxt rs) >>= (fun rest => Except.ok (nxt :: rest)) = .ok (nxt :: tr)
            rw [htr]
            rfl
          · have hmin : (if nxt.score < best.score then nxt else best).score
                = min best.score nxt.score := by
              rcases lt_or_ge nxt.score best.score with hlt | hge
              · rw [if_pos hlt, min_eq_right hlt.le]
              · rw [if_neg (not_lt.mpr hge), min_eq_left hge]
            rw [hsc, hmin]
            simp

/-- C6: a run of the engine with zero iterations returns the initial state
unchanged, and every successful run returns a state whose score is the
minimum over the initial score and the scores of all states sampled as
current during the run (the best-so-far, not the final current state). -/
theorem search_returns_best (init : Necklace) (rs : List ℕ) (out : Necklace)
    (h : search init rs = .ok out) :
    search init [] = .ok init ∧
    ∃ tr, trajectory init rs = .ok tr ∧
      out.score = (tr.map Necklace.score).foldl min init.score :=
  ⟨rfl, searchLoop_min rs init init out h⟩

/-- Witness for C6 at a concrete state and the zero-iteration run. -/
theorem search_returns_best_witness :
    search exC6 [] = .ok exC6 ∧
    ∃ tr, trajectory exC6 [] = .ok tr ∧
      exC6.score = (tr.map Necklace.score).foldl min exC6.score :=
  search_returns_best exC6 [] exC6 rfl

/-- The list of unnormalized weights sums to `Σ_{j=1..k} (1/j)²`. -/
theorem pTilde_sum (k : ℕ) :
    (pTilde k).sum = ∑ j ∈ Finset.Icc 1 k, (1 / (j : ℚ)) ^ 2 := by
  induction k with
  | zero => simp [pTilde]
  | succ n ih =>
      rw [pTilde, List.range'_concat, List.map_append, List.sum_append]
      rw [show (List.range' 1 n).map (fun i : ℕ => (1 / (i : ℚ)) ^ 2) = pTilde n from rfl, ih]
      rw [Finset.sum_Icc_succ_top (Nat.one_le_iff_ne_zero.mpr (Nat.succ_ne_zero n))]
      simp
      ring

/-- The weight at 1-based rank `r` among `k` neighbors is `(1/r)²`. -/
theorem pTilde_getD (k r : ℕ) (h1 : 1 ≤ r) (hrk : r ≤ k) :
    (pTilde k).getD (r - 1) 0 = (1 / (r : ℚ)) ^ 2 := by
  have hlen : (pTilde k).length = k := by simp [pTilde]
  have hlt : r - 1 < (pTilde k).length := by rw [hlen]; omega
  rw [List.getD_eq_getElem _ _ hlt]
  simp only [pTilde, List.getElem_map, List.getElem_range']
  have hr : 1 + 1 * (r - 1) = r := by omega
  rw [hr]

/-- C7: in every iteration the neighbors are sorted ascending by score with a
stable sort (elements of equal score keep their generation order, stated as
the sorted list filtered to any one score value being identical to the
unsorted list so filtered), the sampling distribution assigns 1-based sorted
rank `r` the probability `(1/r)² / Σ_{j=1..k} (1/j)²`, and the sampled state
is exactly the rank-`r` entry of the sorted list, unconditionally - no
accept/reject comparison against the current score is made. -/
theorem rank_weighted_sampling (s : Necklace) (k r : ℕ)
    (hk : k = (sortNeighbors s).length) (h1 : 1 ≤ r) (hrk : r ≤ k) :
    List.Sorted (fun a b : Necklace => a.score ≤ b.score) (sortNeighbors s) ∧
    (∀ q : ℚ, (sortNeighbors s).filter (fun nb => nb.score = q)
      = (get_neighbors s).filter (fun nb => nb.score = q)) ∧
    sampleProb k r = (1 / (r : ℚ)) ^ 2 / (∑ j ∈ Finset.Icc 1 k, (1 / (j : ℚ)) ^ 2) ∧
    ∀ h : r - 1 < (sortNeighbors s).length,
      searchStep s (r - 1) = .ok ((sortNeighbors s).get ⟨r - 1, h⟩) := by
  haveI htot : IsTotal Necklace (fun a b : Necklace => a.score ≤ b.score) :=
    ⟨fun a b => le_total a.score b.score⟩
  haveI htrans : IsTrans Necklace (fun a b : Necklace => a.score ≤ b.score) :=
    ⟨fun _ _ _ hab hbc => le_trans hab hbc⟩
  refine ⟨?_, ?_, ?_, ?_⟩
  · exact List.sorted_insertionSort _ _
  · intro q
    have hpw : ((get_neighbors s).filter (fun nb => decide (nb.score = q))).Pairwise
        (fun a b : Necklace => a.score ≤ b.score) := by
      apply List.pairwise_of_forall_mem_list
      intro a ha b hb
      have ha2 : a.score = q := of_decide_eq_true (List.mem_filter.mp ha).2
      have hb2 : b.score = q := of_decide_eq_true (List.mem_filter.mp hb).2
      rw [ha2, hb2]
    have hsub1 : List.Sublist ((get_neighbors s).filter (fun nb => decide (nb.score = q)))
        (sortNeighbors s) :=
      List.sublist_insertionSort hpw (List.filter_sublist _)
    have hidem : ((get_neighbors s).filter (fun nb => decide (nb.score = q))).filter
        (fun nb => decide (nb.score = q))
        = (get_neighbors s).filter (fun nb => decide (nb.score = q)) :=
      List.filter_eq_self.mpr (fun a ha => (List.mem_filter.mp ha).2)
    have hsub2 : List.Sublist ((get_neighbors s).filter (fun nb => decide (nb.score = q)))
        ((sortNeighbors s).filter (fun nb => decide (nb.score = q))) := by
      have h2 := List.Sublist.filter (fun nb => decide (nb.score = q)) hsub1
      rwa [hidem] at h2
    have hperm : ((sortNeighbors s).filter (fun nb => decide (nb.score = q))).Perm
        ((get_neighbors s).filter (fun nb => decide (nb.score = q))) :=
      (List.perm_insertionSort _ _).filter _
    exact (hsub2.eq_of_length hperm.length_eq.symm).symm
  · rw [sampleProb, pTilde_getD k r h1 hrk, pTilde_sum]
  · intro h
    have hne : (sortNeighbors s).isEmpty = false := by
      rcases hemp : (sortNeighbors s).isEmpty with _ | _
      · rfl
      · rw [List.isEmpty_iff] at hemp
        rw [hemp] at h
        simp at h
    show (if (sortNeighbors s).isEmpty = true then Except.error PyErr.valueError
      else .ok ((sortNeighbors s).getD ((r - 1) % (sortNeighbors s).length) s))
      = .ok ((sortNeighbors s).get ⟨r - 1, h⟩)
    rw [hne]
    simp only [Bool.false_eq_true, if_false]
    rw [Nat.mod_eq_of_lt h, List.getD_eq_getElem _ _ h, List.get_eq_getElem]

/-- Witness for C7 at a concrete state with exactly one neighbor. -/
theorem rank_weighted_sampling_witness :
    List.Sorted (fun a b : Necklace => a.score ≤ b.score) (sortNeighbors exC7) ∧
    (∀ q : ℚ, (sortNeighbors exC7).filter (fun nb => nb.score = q)
      = (get_neighbors exC7).filter (fun nb => nb.score = q)) ∧
    sampleProb 1 1 = (1 / ((1 : ℕ) : ℚ)) ^ 2 /
      (∑ j ∈ Finset.Icc (1 : ℕ) 1, (1 / (j : ℚ)) ^ 2) ∧
    ∀ h : 1 - 1 < (sortNeighbors exC7).length,
      searchStep exC7 (1 - 1) = .ok ((sortNeighbors exC7).get ⟨1 - 1, h⟩) :=
  rank_weighted_sampling exC7 1 1 rfl le_rfl le_rfl

/-- C8: on the state `exC8` (assignments `[0, 1, 0]`, reachable from random
seeding), thief 2 owns no partition; the vectorized `get_thief_beads` raises
the `np.concatenate` empty-sequence `ValueError` instead of returning the
empty bead list that the scalar implementation (and the spec) produce. -/
theorem np_get_thief_beads_empty_thief_bug :
    npGet_thief_beads exC8 2 = .error PyErr.valueError ∧
    get_thief_beads exC8 2 = [] := ⟨rfl, rfl⟩

/-- C9: neighbor generation is a pure function of the base state (the base is
never mutated and no arrays are shared, which the value semantics of this
embedding makes implicit), and every emitted neighbor keeps the base bead
sequence, thief count and move bound, differs from the base in exactly one
cut position (at an index of the cut list, with a value not already a cut) or
exactly one assignment entry (with a value different from the one replaced),
and carries the score regenerated for its own cuts and assignments. -/
theorem neighbors_one_change (s nb : Necklace)
    (hlen : s.cuts.length = s.num_cuts.toNat)
    (hmem : nb ∈ get_neighbors s) :
    nb.beads = s.beads ∧ nb.num_thieves = s.num_thieves ∧ nb.max_move = s.max_move ∧
    ((∃ i p, i < s.cuts.length ∧ s.cuts.getD i 0 ≠ p ∧ p ∉ s.cuts ∧
        nb.cuts = s.cuts.set i p ∧ nb.assignments = s.assignments) ∨
     (∃ i th, i < s.assignments.length ∧ s.assignments.getD i 0 ≠ th ∧
        nb.assignments = s.assignments.set i th ∧ nb.cuts = s.cuts)) ∧
    nb.score = gen_score nb := by
  rw [get_neighbors, List.mem_append] at hmem
  rcases hmem with hcut | hasg
  · rw [cutMoveNeighbors, List.mem_flatMap] at hcut
    obtain ⟨i, hi, hnb⟩ := hcut
    rw [List.mem_range] at hi
    rw [List.mem_map] at hnb
    obtain ⟨p, hp, hnbeq⟩ := hnb
    rw [List.mem_filter] at hp
    have hpnot : p ∉ s.cuts := of_decide_eq_true hp.2
    have hilen : i < s.cuts.length := by omega
    have hne : s.cuts.getD i 0 ≠ p := by
      intro heq
      apply hpnot
      rw [← heq, List.getD_eq_getElem _ _ hilen]
      exact List.getElem_mem hilen
    subst hnbeq
    exact ⟨rfl, rfl, rfl, Or.inl ⟨i, p, hilen, hne, hpnot, rfl, rfl⟩, mkState_score _ _ _ _ _⟩
  · rw [assignMoveNeighbors, List.mem_flatMap] at hasg
    obtain ⟨i, hi, hnb⟩ := hasg
    rw [List.mem_range] at hi
    rw [List.mem_map] at hnb
    obtain ⟨th, hth, hnbeq⟩ := hnb
    rw [List.mem_filter] at hth
    have hthnot : th ∉ (s.assignments.drop (if 0 < i then i else 0)).take 3 :=
      of_decide_eq_true hth.2
    have hieq : (if 0 < i then i else 0) = i := by
      rcases Nat.eq_zero_or_pos i with h0 | h0
      · rw [h0]; rfl
      · rw [if_pos h0]
    rw [hieq] at hthnot
    have hne : s.assignments.getD i 0 ≠ th := by
      intro heq
      apply hthnot
      rw [← heq, List.getD_eq_getElem _ _ hi]
      rw [List.drop_eq_getElem_cons hi]
      rw [show (3 : ℕ) = 2 + 1 from rfl, List.take_succ_cons]
      exact List.mem_cons_self _ _
    subst hnbeq
    exact ⟨rfl, rfl, rfl, Or.inr ⟨i, th, hi, hne, rfl, rfl⟩, mkState_score _ _ _ _ _⟩

/-- Witness for C9: the first neighbor of `exC9` is the assignment move
changing entry 1 from 1 to 0. -/
theorem neighbors_one_change_witness :
    nbC9.beads = exC9.beads ∧ nbC9.num_thieves = exC9.num_thieves ∧
    nbC9.max_move = exC9.max_move ∧
    ((∃ i p, i < exC9.cuts.length ∧ exC9.cuts.getD i 0 ≠ p ∧ p ∉ exC9.cuts ∧
        nbC9.cuts = exC9.cuts.set i p ∧ nbC9.assignments = exC9.assignments) ∨
     (∃ i th, i < exC9.assignments.length ∧ exC9.assignments.getD i 0 ≠ th ∧
        nbC9.assignments = exC9.assignments.set i th ∧ nbC9.cuts = exC9.cuts)) ∧
    nbC9.score = gen_score nbC9 :=
  neighbors_one_change exC9 nbC9 rfl
    (by rw [show get_neighbors exC9
          = [nbC9, mkState [0, 0, 0] 3 0 [1, 2] [0, 1, 0],
             mkState [0, 0, 0] 3 0 [1, 2] [0, 1, 1]] from rfl]
        exact List.mem_cons_self _ _)

/-- C10: hashing any constructed state raises `TypeError`: the sorted
attribute items always start with the unhashable `assignments` array (and
also contain the `beads` and `cuts` lists), so `hash(tuple(...))` fails on
every state and states can never be stored in hash-based containers. -/
theorem necklace_hash_typeerror (s : Necklace) :
    necklaceHash s = .error PyErr.typeError := rfl
